import Mathlib

/-!
Verification development for the sentiment analysis classifier core.

The definitions below are a shallow embedding of the two modules holding the
algorithmic core of the repository:

* `packages/ml_core/validators.py` — `TextValidator` (length, content and
  whitespace checks, sanitization, metadata assembly);
* `packages/ml_core/sentiment_pipeline.py` — `SentimentClassificationPipeline`
  (lazy initialization, score selection, label canonicalization, attention
  attribution).

Text is modelled as `List Char`, Python floats as exact rationals `ℚ`, and
fallible operations as `Option`/`Except`.  Wall-clock timing fields are not
modelled.  The theorems after the definitions settle the frozen claims.
-/

namespace SentimentSpec

/-- Python whitespace class `\s` restricted to its ASCII members (space, tab,
newline, carriage return, vertical tab, form feed). -/
def isSpace (c : Char) : Bool :=
  c = ' ' || c = '\t' || c = '\n' || c = '\r' || c = '\x0b' || c = '\x0c'

/-- Whether the next character of a list is whitespace. -/
def headIsSpace : List Char → Bool
  | [] => false
  | c :: _ => isSpace c

/-- Embedding of `re.sub(r"\s+", " ", text)`: every maximal whitespace run
becomes a single space. -/
def collapseWs : List Char → List Char
  | [] => []
  | c :: cs =>
    if isSpace c then
      if headIsSpace cs then collapseWs cs else ' ' :: collapseWs cs
    else c :: collapseWs cs

/-- Scanner used by the html pattern `<[^>]+>`: consume characters until the
closing `>` and return the remainder after it. -/
def tagScan : List Char → Option (List Char)
  | [] => none
  | c :: cs => if c = '>' then some cs else tagScan cs

/-- Match of the html pattern `<[^>]+>` at one position: given the characters
following `<`, the body must start with a character other than `>` and then
reach a `>`; returns the remainder after the match. -/
def tagSplit : List Char → Option (List Char)
  | [] => none
  | c :: cs => if c = '>' then none else tagScan cs

/-- Embedding of `re.sub` of the html pattern `<[^>]+>` with the empty string,
scanning left to right.  The fuel argument bounds the recursion; it is passed
the input length, which suffices because every step consumes at least one
character. -/
def stripTagsAux : Nat → List Char → List Char
  | 0, l => l
  | _ + 1, [] => []
  | fuel + 1, c :: cs =>
    if c = '<' then
      match tagSplit cs with
      | some rest => stripTagsAux fuel rest
      | none => c :: stripTagsAux fuel cs
    else c :: stripTagsAux fuel cs

/-- Removal of all matches of the html pattern `<[^>]+>`. -/
def stripTags (l : List Char) : List Char := stripTagsAux l.length l

/-- Embedding of `text.replace("\r\n", "\n")`, scanning left to right. -/
def replaceCRLF : List Char → List Char
  | [] => []
  | [c] => [c]
  | c1 :: c2 :: rest =>
    if c1 = '\r' && c2 = '\n' then '\n' :: replaceCRLF rest
    else c1 :: replaceCRLF (c2 :: rest)

/-- Embedding of `text.replace("\r", "\n")`. -/
def replaceCR (l : List Char) : List Char :=
  l.map fun c => if c = '\r' then '\n' else c

/-- Embedding of `str.strip()`: drop whitespace from both ends. -/
def pyStrip (l : List Char) : List Char :=
  ((l.dropWhile isSpace).reverse.dropWhile isSpace).reverse

/-- Embedding of `TextValidator._sanitize_text`: collapse whitespace runs,
strip html tags, normalize line endings, then trim. -/
def sanitize_text (l : List Char) : List Char :=
  pyStrip (replaceCR (replaceCRLF (stripTags (collapseWs l))))

/-- Counter for `len(text.split())` with no separator argument: the number of
maximal nonwhitespace runs.  The flag records whether the scan is inside a run
counted already. -/
def wcAux : Bool → List Char → Nat
  | _, [] => 0
  | inWord, c :: cs =>
    if isSpace c then wcAux false cs
    else if inWord then wcAux true cs else 1 + wcAux true cs

/-- Number of words of `str.split()`. -/
def wordCount (l : List Char) : Nat := wcAux false l

/-- Line boundaries recognized by `str.splitlines`. -/
def isLineBreak (c : Char) : Bool :=
  c = '\n' || c = '\r' || c = '\x0b' || c = '\x0c' ||
  c = '\x1c' || c = '\x1d' || c = '\x1e' || c = '\x85' || c = '\u2028' || c = '\u2029'

/-- Counter for `len(text.splitlines())`.  The flag records whether the scan is
inside a line counted already; a `"\r\n"` pair is one boundary and a trailing
boundary opens no new line. -/
def slAux : Bool → List Char → Nat
  | _, [] => 0
  | inLine, '\r' :: '\n' :: rest => (if inLine then 0 else 1) + slAux false rest
  | inLine, c :: cs =>
    if isLineBreak c then (if inLine then 0 else 1) + slAux false cs
    else if inLine then slAux true cs else 1 + slAux true cs

/-- Number of lines of `str.splitlines()`. -/
def lineCount (l : List Char) : Nat := slAux false l

/-- Whether the first list is an initial segment of the second. -/
def startsWithList : List Char → List Char → Bool
  | [], _ => true
  | _ :: _, [] => false
  | a :: as, b :: bs => a = b && startsWithList as bs

/-- Python substring containment, the `in` operator on `str`. -/
def containsSub (needle : List Char) : List Char → Bool
  | [] => startsWithList needle []
  | c :: cs => startsWithList needle (c :: cs) || containsSub needle cs

/-- Embedding of `str.lower()` restricted to the ASCII case mapping. -/
def lowerList (l : List Char) : List Char := l.map Char.toLower

/-- Character admitted by the body of the url pattern: the classes `[a-zA-Z]`,
`[0-9]`, `[$-_@.&+]` (a range from `$` to `_`, which also contains `%`), and
`[!*\\(\\),]`. -/
def urlBodyChar (c : Char) : Bool :=
  c.isAlpha || c.isDigit || ('$' ≤ c && c ≤ '_') || c = '@' || c = '.' || c = '&' ||
  c = '+' || c = '!' || c = '*' || c = '\\' || c = '(' || c = ')' || c = ','

/-- Match of the url pattern `http[s]?://(...)+` at one position: the literal
scheme followed by at least one body character.  The `%xx` escape alternative
of the source pattern is subsumed because `%` falls inside the `$-_` range. -/
def urlMatchAt : List Char → Bool
  | 'h' :: 't' :: 't' :: 'p' :: 's' :: ':' :: '/' :: '/' :: c :: _ => urlBodyChar c
  | 'h' :: 't' :: 't' :: 'p' :: ':' :: '/' :: '/' :: c :: _ => urlBodyChar c
  | _ => false

/-- Embedding of `re.search` of the url pattern: a match at some position. -/
def hasUrl : List Char → Bool
  | [] => false
  | c :: cs => urlMatchAt (c :: cs) || hasUrl cs

/-- Character class `[a-zA-Z0-9._%+-]` of the email pattern's local part. -/
def emailLocalChar (c : Char) : Bool :=
  c.isAlpha || c.isDigit || c = '.' || c = '_' || c = '%' || c = '+' || c = '-'

/-- Character class `[a-zA-Z0-9.-]` of the email pattern's domain part. -/
def emailDomChar (c : Char) : Bool :=
  c.isAlpha || c.isDigit || c = '.' || c = '-'

/-- Match of `\.[a-zA-Z]{2,}` at one position. -/
def emailTailAt : List Char → Bool
  | '.' :: a :: b :: _ => a.isAlpha && b.isAlpha
  | _ => false

/-- After at least one domain character, whether some continuation of domain
characters reaches the `\.[a-zA-Z]{2,}` tail. -/
def emailDomRest : List Char → Bool
  | [] => false
  | c :: cs => emailTailAt (c :: cs) || (emailDomChar c && emailDomRest cs)

/-- Match of the domain half `[a-zA-Z0-9.-]+\.[a-zA-Z]{2,}` at one position. -/
def emailAfterAt : List Char → Bool
  | [] => false
  | c :: cs => emailDomChar c && emailDomRest cs

/-- Embedding of `re.search` of the email pattern
`[a-zA-Z0-9._%+-]+@[a-zA-Z0-9.-]+\.[a-zA-Z]{2,}`: a match exists exactly when
some `@` has a local character directly before it and a domain, a dot and two
letters after it. -/
def hasEmail : List Char → Bool
  | [] => false
  | [_] => false
  | c1 :: c2 :: rest =>
    (emailLocalChar c1 && c2 = '@' && emailAfterAt rest) || hasEmail (c2 :: rest)

/-- Embedding of `re.search` of the html pattern `<[^>]+>`. -/
def hasHtmlTag : List Char → Bool
  | [] => false
  | c :: cs => (c = '<' && (tagSplit cs).isSome) || hasHtmlTag cs

/-- Word character of the regex class `\w` restricted to ASCII. -/
def isWordChar (c : Char) : Bool := c.isAlphanum || c = '_'

/-- Whether a list starts with the given character. -/
def headIs (c : Char) : List Char → Bool
  | [] => false
  | d :: _ => d = c

/-- Match of the event-handler pattern `on\w+\s*=` at one position of an
already lower-cased text: `on`, at least one word character, optional
whitespace, then `=`. -/
def eventHandlerAt : List Char → Bool
  | 'o' :: 'n' :: rest =>
    (match rest with
     | [] => false
     | d :: _ => isWordChar d) &&
    headIs '=' ((rest.dropWhile isWordChar).dropWhile isSpace)
  | _ => false

/-- Embedding of `re.search` of the event-handler pattern. -/
def hasEventHandler : List Char → Bool
  | [] => false
  | c :: cs => eventHandlerAt (c :: cs) || hasEventHandler cs

/-- The ordered suspicious-pattern table of `TextValidator._validate_content`;
all patterns are searched case-insensitively, modelled by lowering the text. -/
def suspiciousCheck (text : List Char) : Option String :=
  let low := lowerList text
  if containsSub "<script".data low then some "HTML script tags not allowed"
  else if containsSub "javascript:".data low then some "JavaScript code not allowed"
  else if containsSub "data:text/html".data low then some "Data URLs not allowed"
  else if containsSub "vbscript:".data low then some "VBScript not allowed"
  else if hasEventHandler low then some "Event handlers not allowed"
  else none

/-- Embedding of `TextValidator._validate_length`: bounds on
`len(text.strip())`; the successful branch reports that length. -/
def validate_length (text : List Char) : Except String Nat :=
  if (pyStrip text).length < 1 then .error "Text too short (minimum 1 characters)"
  else if (pyStrip text).length > 10000 then .error "Text too long (maximum 10000 characters)"
  else .ok (pyStrip text).length

/-- Embedding of `TextValidator._validate_content`: the whitespace-only check,
the word and line count bounds, then the suspicious patterns, in source
order.  Returns the error message on failure. -/
def validate_content (text : List Char) : Option String :=
  if pyStrip text = [] then some "Text contains only whitespace"
  else if wordCount text > 2000 then some "Text contains too many words (maximum 2000)"
  else if lineCount text > 100 then some "Text contains too many lines (maximum 100)"
  else suspiciousCheck text

/-- Metadata record assembled by `TextValidator.validate_text`. -/
structure Metadata where
  original_length : Nat
  sanitized_length : Nat
  length : Nat
  word_count : Nat
  line_count : Nat
  contains_urls : Bool
  contains_emails : Bool
  contains_html : Bool
deriving DecidableEq

/-- Embedding of `TextValidator.validate_text`: the empty check, the length
check, the content check, then sanitization and metadata assembly.  The word
and line counts are taken on the sanitized text while the three pattern flags
are taken on the original text, exactly as in the source. -/
def validate_text (text : List Char) : Except String Metadata :=
  if text = [] then .error "Text cannot be empty"
  else
    match validate_length text with
    | .error m => .error m
    | .ok n =>
      match validate_content text with
      | some m => .error m
      | none =>
        .ok { original_length := text.length
              sanitized_length := (sanitize_text text).length
              length := n
              word_count := wordCount (sanitize_text text)
              line_count := lineCount (sanitize_text text)
              contains_urls := hasUrl text
              contains_emails := hasEmail text
              contains_html := hasHtmlTag text }

/-- Round half to even onto an integer, the rounding of Python's `round`. -/
def roundHalfEven (x : ℚ) : ℤ :=
  if Int.fract x < 1/2 then ⌊x⌋
  else if 1/2 < Int.fract x then ⌊x⌋ + 1
  else if ⌊x⌋ % 2 = 0 then ⌊x⌋ else ⌊x⌋ + 1

/-- Python `round(x, 4)` modelled over exact rationals. -/
def pyRound4 (x : ℚ) : ℚ := ((roundHalfEven (x * 10000) : ℤ) : ℚ) / 10000

/-- One entry of the backend's class-score list. -/
structure RawScore where
  label : String
  score : ℚ
deriving DecidableEq

/-- Embedding of `max(scores, key=lambda x: x["score"])`: the running maximum
is replaced only on a strictly larger score, so the first maximal entry of the
iteration order wins. -/
def pyMaxBy : RawScore → List RawScore → RawScore
  | acc, [] => acc
  | acc, x :: xs => pyMaxBy (if acc.score < x.score then x else acc) xs

/-- Positive markers of `_map_sentiment_label`, in source order. -/
def posMarkers : List String := ["positive", "pos", "1"]

/-- Negative markers of `_map_sentiment_label`, in source order. -/
def negMarkers : List String := ["negative", "neg", "0"]

/-- Embedding of `SentimentClassificationPipeline._map_sentiment_label`:
lower-case the label, check the positive markers by substring membership
first, the negative markers second, defaulting to neutral. -/
def map_sentiment_label (label : String) : String :=
  if posMarkers.any fun m => containsSub m.data (lowerList label.data) then "positive"
  else if negMarkers.any fun m => containsSub m.data (lowerList label.data) then "negative"
  else "neutral"

/-- The `label_mapping` dict `{0: "negative", 1: "positive"}`; a missing key
models the `KeyError` Python would raise on lookup. -/
def labelMapping (n : Nat) : Option String :=
  if n = 0 then some "negative" else if n = 1 then some "positive" else none

/-- Helper of `argmaxQ`: running first index of the maximal entry. -/
def argmaxAux : List ℚ → Nat → Nat → ℚ → Nat
  | [], _, best, _ => best
  | y :: ys, i, best, bv =>
    if bv < y then argmaxAux ys (i + 1) i y else argmaxAux ys (i + 1) best bv

/-- Embedding of `torch.argmax` over a vector: index of the first maximal
entry; an empty tensor models the error torch raises. -/
def argmaxQ : List ℚ → Option Nat
  | [] => none
  | x :: xs => some (argmaxAux xs 1 0 x)

/-- Embedding of `torch.mean(last_layer_attention, dim=1)[0, 0, :]` for a batch
of one input: the pointwise mean over heads of row 0 of each head's seq × seq
matrix.  The singleton batch dimension is omitted. -/
def clsRow (att : List (List (List ℚ))) : List ℚ :=
  ((att.map fun m => m.getD 0 []).transpose).map fun col => col.sum / (att.length : ℚ)

/-- One entry of the `attention_weights` output list. -/
structure TokenAttr where
  token : String
  attention_score : ℚ
  contribution_score : ℚ
deriving DecidableEq

/-- One entry of the `word_contributions` output list. -/
structure WordContribution where
  token : String
  score : ℚ
deriving DecidableEq

/-- Special tokens excluded from attribution. -/
def specialTokens : List String := ["[CLS]", "[SEP]", "[PAD]"]

/-- Loop of `_extract_attention_weights`: skip special tokens, read the
attention for index i from the cls row (a missing index models the IndexError
Python would raise on tensor indexing), and build the rounded attention and
contribution entries. -/
def buildEntries (cls : List ℚ) (influence : ℚ) : Nat → List String → Option (List TokenAttr)
  | _, [] => some []
  | i, t :: ts =>
    if t ∈ specialTokens then buildEntries cls influence (i + 1) ts
    else
      match cls[i]? with
      | none => none
      | some a =>
        match buildEntries cls influence (i + 1) ts with
        | none => none
        | some rest => some (⟨t, pyRound4 a, pyRound4 (a * influence)⟩ :: rest)

/-- Comparator of `word_contributions.sort(key=lambda x: abs(x["score"]),
reverse=True)`: an entry may stay before another exactly when its absolute
score is at least as large. -/
def wcLe (a b : WordContribution) : Bool := decide (|b.score| ≤ |a.score|)

/-- The attention payload merged into the prediction response. -/
structure AttentionData where
  attention_weights : List TokenAttr
  word_contributions : List WordContribution
  top_contributing_words : List WordContribution
deriving DecidableEq

/-- The empty attention payload returned by the except branch. -/
def emptyAttention : AttentionData := ⟨[], [], []⟩

/-- Body of `_extract_attention_weights` on the tensors of one forward pass;
`none` models any raised exception (empty logits under `torch.argmax`, a
`KeyError` from `label_mapping`, an `IndexError` into the cls attention row).
The in-place stable sort of `word_contributions` is modelled by a stable merge
sort under `wcLe`. -/
def extractAttentionOpt (tokens : List String) (att : List (List (List ℚ)))
    (logits : List ℚ) : Option AttentionData :=
  match argmaxQ logits with
  | none => none
  | some idx =>
    match labelMapping idx with
    | none => none
    | some lbl =>
      let influence : ℚ := if lbl = "positive" then 1 else -1
      match buildEntries (clsRow att) influence 0 tokens with
      | none => none
      | some entries =>
        let contribs := entries.map fun e => WordContribution.mk e.token e.contribution_score
        let sorted := contribs.mergeSort wcLe
        some ⟨entries, sorted, sorted.take 10⟩

/-- The full attention extraction including the try/except of
`_extract_attention_weights`: a `none` input models an exception before the
tensors exist (tokenizer or forward pass); every failure path degrades to the
empty attention payload. -/
def extract_attention_weights
    (inp : Option (List String × List (List (List ℚ)) × List ℚ)) : AttentionData :=
  match inp with
  | none => emptyAttention
  | some (tokens, att, logits) => (extractAttentionOpt tokens att logits).getD emptyAttention

/-- The label, confidence and raw-score fields computed by `predict`. -/
structure PredictionCore where
  sentiment_label : String
  confidence_score : ℚ
  model_confidence : List (List RawScore)
deriving DecidableEq

/-- Embedding of the score handling of `predict` (lines 106-123 and 134-140):
select the maximal entry of the first score list when the backend result is
nonempty, otherwise fall back to neutral with confidence 0.5 and an empty
`model_confidence`; an empty inner score list models the `ValueError` raised
by `max()` on an empty sequence. -/
def predictFromResults (results : Option (List (List RawScore))) :
    Except String PredictionCore :=
  match results with
  | some ((s :: ss) :: rest) =>
    .ok ⟨map_sentiment_label (pyMaxBy s ss).label, pyRound4 (pyMaxBy s ss).score,
      (s :: ss) :: rest⟩
  | some ([] :: _) => .error "max() arg is an empty sequence"
  | _ => .ok ⟨"neutral", pyRound4 (1/2), []⟩

/-- Initialization state of the service: the `_is_initialized` flag and the
number of initialization attempts made so far. -/
structure ServiceState where
  isInitialized : Bool
  initAttempts : Nat
deriving DecidableEq

/-- Result record of a successful `predict` call; the wall-clock
`processing_time_ms` field is not modelled. -/
structure PredictResult where
  sentiment_label : String
  confidence_score : ℚ
  model_confidence : List (List RawScore)
  input_text_length : Nat
  attention : Option AttentionData
deriving DecidableEq

/-- Embedding of `predict` after initialization (lines 98-147): the emptiness
and length re-checks, score selection, the optional attention extraction, and
result assembly.  The attention keys are merged into the response whenever
attention was requested, because the except branch of the extractor returns a
nonempty dict of empty lists. -/
def predictBody (text : List Char) (includeAttention : Bool)
    (results : Option (List (List RawScore)))
    (attnInp : Option (List String × List (List (List ℚ)) × List ℚ)) :
    Except String PredictResult :=
  if text = [] ∨ pyStrip text = [] then .error "Input text cannot be empty"
  else if text.length > 10000 then .error "Input text too long (max 10,000 characters)"
  else
    match predictFromResults results with
    | .error m => .error m
    | .ok core =>
      .ok ⟨core.sentiment_label, core.confidence_score, core.model_confidence, text.length,
        if includeAttention then some (extract_attention_weights attnInp) else none⟩

/-- Embedding of `predict` including the lazy initialization of lines 93-96: an
uninitialized service calls `_initialize_pipeline`, whose outcome for the k-th
attempt is given by `initOutcome k`; failure raises the `RuntimeError` of
`_initialize_pipeline` and leaves `_is_initialized` false. -/
def predict (st : ServiceState) (initOutcome : Nat → Bool) (text : List Char)
    (includeAttention : Bool) (results : Option (List (List RawScore)))
    (attnInp : Option (List String × List (List (List ℚ)) × List ℚ)) :
    ServiceState × Except String PredictResult :=
  if st.isInitialized then (st, predictBody text includeAttention results attnInp)
  else if initOutcome st.initAttempts then
    (⟨true, st.initAttempts + 1⟩, predictBody text includeAttention results attnInp)
  else
    (⟨false, st.initAttempts + 1⟩, .error "Pipeline initialization failed")

/-- Whether a prediction outcome is a success. -/
def exceptIsOk : Except String PredictResult → Bool
  | .ok _ => true
  | .error _ => false

/-- An attention-extraction input on which Python raises inside the try block
of `_extract_attention_weights`. -/
def extractFails : Option (List String × List (List (List ℚ)) × List ℚ) → Prop
  | none => True
  | some (tokens, att, logits) => extractAttentionOpt tokens att logits = none

/-- The whitespace-only input of the repository's own validator test. -/
def wsOnlyText : List Char := [' ', ' ', ' ', '\n', '\t', ' ', ' ', ' ']

/-- A benign input whose html flag separates original from sanitized text. -/
def htmlDemoText : List Char := ['<', 'b', '>', 'h', 'i', '<', '/', 'b', '>']

/-- Metadata produced for `htmlDemoText`. -/
def htmlDemoMeta : Metadata := ⟨9, 2, 9, 1, 1, false, false, true⟩

/-- Input showing that tag stripping can merge two whitespace runs. -/
def cexC3 : List Char := ['a', ' ', '<', 'b', '>', ' ', 'c']

/-- An initialization environment whose first attempt fails and whose later
attempts succeed. -/
def flakyInit (k : Nat) : Bool := decide (1 ≤ k)

/-- A plain short input text. -/
def demoText : List Char := ['h', 'i']

/-- A backend classification result with two classes. -/
def demoScores : Option (List (List RawScore)) :=
  some [[⟨"POSITIVE", 9/10⟩, ⟨"NEGATIVE", 1/10⟩]]

/-- A backend classification result with a score tie; the first entry must
win. -/
def tieScores : List RawScore := [⟨"NEGATIVE", 1/2⟩, ⟨"POSITIVE", 1/2⟩]

/-- Token list of a small attribution run: one lexical token between the
structural ones. -/
def cdTokens : List String := ["[CLS]", "hello", "[SEP]"]

/-- A one-head 3 × 3 attention tensor for the small attribution run. -/
def cdAtt : List (List (List ℚ)) := [[[0, 1/2, 1/2], [1, 0, 0], [1, 0, 0]]]

/-- Logits of the small attribution run; class 1 (positive) wins. -/
def cdLogits : List ℚ := [0, 1]

/-- The attention payload of the small attribution run. -/
def cdData : AttentionData :=
  (extractAttentionOpt cdTokens cdAtt cdLogits).getD emptyAttention

/-- All whitespace characters of a list are plain spaces. -/
abbrev spacesOk (l : List Char) : Prop := ∀ c ∈ l, isSpace c = true → c = ' '

/-- No two adjacent characters of a list are both whitespace. -/
abbrev noWsPair (l : List Char) : Prop :=
  List.Chain' (fun a b => ¬(isSpace a = true ∧ isSpace b = true)) l

/-! ## Rounding lemmas -/

/-- Round half to even is the identity on integers. -/
theorem roundHalfEven_intCast (n : ℤ) : roundHalfEven ((n : ℤ) : ℚ) = n := by
  rw [roundHalfEven, Int.fract_intCast, Int.floor_intCast]
  norm_num

/-- Round half to even commutes with negation. -/
theorem roundHalfEven_neg (x : ℚ) : roundHalfEven (-x) = -roundHalfEven x := by
  by_cases h0 : Int.fract x = 0
  · obtain ⟨n, rfl⟩ : ∃ n : ℤ, x = (n : ℚ) := by
      refine ⟨⌊x⌋, ?_⟩
      have h := Int.floor_add_fract x
      rw [h0, add_zero] at h
      exact h.symm
    have hneg : -((n : ℤ) : ℚ) = (((-n : ℤ) : ℤ) : ℚ) := by push_cast; ring
    rw [hneg, roundHalfEven_intCast, roundHalfEven_intCast]
  · have hfpos : 0 < Int.fract x := lt_of_le_of_ne (Int.fract_nonneg x) (Ne.symm h0)
    have hflt : Int.fract x < 1 := Int.fract_lt_one x
    have hfract : Int.fract (-x) = 1 - Int.fract x := Int.fract_neg h0
    have hfloor : ⌊-x⌋ = -⌊x⌋ - 1 := by
      have hx : -x = ((-⌊x⌋ - 1 : ℤ) : ℚ) + (1 - Int.fract x) := by
        have h := Int.floor_add_fract x
        push_cast
        linarith
      rw [hx, Int.floor_int_add]
      have hz : ⌊(1 : ℚ) - Int.fract x⌋ = 0 := by
        rw [Int.floor_eq_zero_iff]
        constructor
        · linarith
        · simpa using hfpos
      omega
    rcases lt_trichotomy (Int.fract x) (1/2) with hlt | heq | hgt
    · have h1 : ¬ (Int.fract (-x) < 1/2) := by rw [hfract]; push_neg; linarith
      have h2 : (1:ℚ)/2 < Int.fract (-x) := by rw [hfract]; linarith
      rw [roundHalfEven, roundHalfEven, if_neg h1, if_pos h2, if_pos hlt, hfloor]
      ring
    · have h1 : ¬ (Int.fract (-x) < 1/2) := by rw [hfract, heq]; norm_num
      have h2 : ¬ ((1:ℚ)/2 < Int.fract (-x)) := by rw [hfract, heq]; norm_num
      have h3 : ¬ (Int.fract x < 1/2) := by rw [heq]; exact lt_irrefl _
      have h4 : ¬ ((1:ℚ)/2 < Int.fract x) := by rw [heq]; exact lt_irrefl _
      rw [roundHalfEven, roundHalfEven, if_neg h1, if_neg h2, if_neg h3, if_neg h4, hfloor]
      rcases Int.even_or_odd ⌊x⌋ with ⟨k, hk⟩ | ⟨k, hk⟩
      · have he : ⌊x⌋ % 2 = 0 := by omega
        have ho : ¬ ((-⌊x⌋ - 1) % 2 = 0) := by omega
        rw [if_pos he, if_neg ho]
        ring
      · have ho : ¬ (⌊x⌋ % 2 = 0) := by omega
        have he : (-⌊x⌋ - 1) % 2 = 0 := by omega
        rw [if_neg ho, if_pos he]
        ring
    · have h1 : Int.fract (-x) < 1/2 := by rw [hfract]; linarith
      have h3 : ¬ (Int.fract x < 1/2) := by push_neg; linarith
      have h4 : (1:ℚ)/2 < Int.fract x := hgt
      rw [roundHalfEven, roundHalfEven, if_pos h1, if_neg h3, if_pos h4, hfloor]
      ring

/-- Python rounding to four places is the identity on exact four-place
fractions. -/
theorem pyRound4_cast_div (n : ℤ) : pyRound4 ((n : ℚ) / 10000) = (n : ℚ) / 10000 := by
  rw [pyRound4, div_mul_cancel₀ _ (by norm_num : (10000 : ℚ) ≠ 0), roundHalfEven_intCast]

/-- The rounded half of the fallback confidence. -/
theorem pyRound4_half : pyRound4 (1/2) = 1/2 := by
  have h : ((1:ℚ)/2) = ((5000 : ℤ) : ℚ) / 10000 := by norm_num
  rw [h, pyRound4_cast_div]

/-- Rounding an already rounded value once more, possibly after a sign flip,
changes nothing. -/
theorem pyRound4_mul_sign (x s : ℚ) (hs : s = 1 ∨ s = -1) :
    pyRound4 (pyRound4 x * s) = pyRound4 (x * s) := by
  have h10 : (10000 : ℚ) ≠ 0 := by norm_num
  rcases hs with rfl | rfl
  · rw [mul_one, mul_one]
    show pyRound4 (((roundHalfEven (x * 10000) : ℤ) : ℚ) / 10000) = _
    rw [pyRound4_cast_div, pyRound4]
  · show pyRound4 (((roundHalfEven (x * 10000) : ℤ) : ℚ) / 10000 * (-1)) = _
    rw [pyRound4]
    have h1 : ((roundHalfEven (x * 10000) : ℤ) : ℚ) / 10000 * (-1) * 10000
        = ((-roundHalfEven (x * 10000) : ℤ) : ℚ) := by
      push_cast
      field_simp
    rw [h1, roundHalfEven_intCast, pyRound4]
    have h2 : x * (-1) * 10000 = -(x * 10000) := by ring
    rw [h2, roundHalfEven_neg]

/-! ## Substring lemmas -/

/-- Characterization of the initial-segment test. -/
theorem startsWithList_iff (n h : List Char) :
    startsWithList n h = true ↔ ∃ r, h = n ++ r := by
  induction n generalizing h with
  | nil => simp [startsWithList]
  | cons a as ih =>
    cases h with
    | nil =>
      simp [startsWithList]
    | cons b bs =>
      simp only [startsWithList, Bool.and_eq_true, decide_eq_true_eq, ih]
      constructor
      · rintro ⟨rfl, r, rfl⟩
        exact ⟨r, rfl⟩
      · rintro ⟨r, hr⟩
        injection hr with h1 h2
        exact ⟨h1.symm, r, h2⟩

/-- Characterization of Python substring containment. -/
theorem containsSub_iff (n h : List Char) :
    containsSub n h = true ↔ ∃ l1 l2, h = l1 ++ n ++ l2 := by
  induction h with
  | nil =>
    simp only [containsSub, startsWithList_iff]
    constructor
    · rintro ⟨r, hr⟩
      exact ⟨[], r, by simpa using hr⟩
    · rintro ⟨l1, l2, hl⟩
      obtain ⟨h12, hl2⟩ := List.append_eq_nil.mp hl.symm
      obtain ⟨hl1, hn⟩ := List.append_eq_nil.mp h12
      exact ⟨l2, by simp [hn, hl2]⟩
  | cons c cs ih =>
    simp only [containsSub, Bool.or_eq_true, startsWithList_iff, ih]
    constructor
    · rintro (⟨r, hr⟩ | ⟨l1, l2, hl⟩)
      · exact ⟨[], r, by simpa using hr⟩
      · exact ⟨c :: l1, l2, by simp [hl]⟩
    · rintro ⟨l1, l2, hl⟩
      cases l1 with
      | nil => exact Or.inl ⟨l2, by simpa using hl⟩
      | cons d ds =>
        rw [List.cons_append, List.cons_append] at hl
        injection hl with h1 h2
        exact Or.inr ⟨ds, l2, h2⟩

/-! ## Selection of the maximal score -/

/-- The entry selected by pyMaxBy is a maximal one and is the first maximal
one in iteration order. -/
theorem pyMaxBy_spec (acc : RawScore) (l : List RawScore) :
    (∀ x ∈ acc :: l, x.score ≤ (pyMaxBy acc l).score) ∧
    ∃ l1 l2, acc :: l = l1 ++ pyMaxBy acc l :: l2 ∧
      ∀ x ∈ l1, x.score < (pyMaxBy acc l).score := by
  induction l generalizing acc with
  | nil =>
    refine ⟨?_, [], [], rfl, by simp⟩
    intro x hx
    rcases List.mem_cons.mp hx with rfl | hx'
    · exact le_refl _
    · simp at hx'
  | cons x xs ih =>
    rw [show pyMaxBy acc (x :: xs) = pyMaxBy (if acc.score < x.score then x else acc) xs
      from rfl]
    by_cases hlt : acc.score < x.score
    · rw [if_pos hlt]
      obtain ⟨hbound, l1, l2, hdec, hsmall⟩ := ih x
      refine ⟨?_, acc :: l1, l2, ?_, ?_⟩
      · intro y hy
        rcases List.mem_cons.mp hy with rfl | hy'
        · exact le_of_lt (lt_of_lt_of_le hlt (hbound x (List.mem_cons_self _ _)))
        · exact hbound y hy'
      · rw [List.cons_append, ← hdec]
      · intro y hy
        rcases List.mem_cons.mp hy with rfl | hy'
        · exact lt_of_lt_of_le hlt (hbound x (List.mem_cons_self _ _))
        · exact hsmall y hy'
    · rw [if_neg hlt]
      obtain ⟨hbound, l1, l2, hdec, hsmall⟩ := ih acc
      refine ⟨?_, ?_⟩
      · intro y hy
        rcases List.mem_cons.mp hy with rfl | hy'
        · exact hbound y (List.mem_cons_self _ _)
        · rcases List.mem_cons.mp hy' with rfl | hy''
          · exact le_trans (le_of_not_lt hlt) (hbound acc (List.mem_cons_self _ _))
          · exact hbound y (List.mem_cons_of_mem _ hy'')
      · cases l1 with
        | nil =>
          rw [List.nil_append] at hdec
          injection hdec with h1 h2
          refine ⟨[], x :: xs, ?_, by simp⟩
          rw [List.nil_append, ← h1]
        | cons d ds =>
          rw [List.cons_append] at hdec
          injection hdec with h1 h2
          refine ⟨acc :: x :: ds, l2, ?_, ?_⟩
          · simp only [List.cons_append]
            rw [← h2]
          · intro y hy
            have hdlt : d.score < (pyMaxBy acc xs).score := hsmall d (List.mem_cons_self _ _)
            have haccd : acc.score = d.score := by rw [h1]
            rcases List.mem_cons.mp hy with rfl | hy'
            · rw [haccd]
              exact hdlt
            · rcases List.mem_cons.mp hy' with rfl | hy''
              · calc y.score ≤ acc.score := le_of_not_lt hlt
                  _ = d.score := haccd
                  _ < _ := hdlt
              · exact hsmall y (List.mem_cons_of_mem _ hy'')

/-! ## Claim C2 -/

/-- C2: a nonempty input consisting only of whitespace is in fact rejected by
the length check, with the message "Text too short (minimum 1 characters)",
and never reaches the whitespace-only check; on the repository's own test
input the validator does not produce "Text contains only whitespace". -/
theorem whitespace_only_rejected_as_too_short :
    validate_text wsOnlyText = .error "Text too short (minimum 1 characters)" := rfl

/-! ## Claim C3 -/

/-- C3, counterexample: sanitize is not idempotent, because removing the html
tag of "a <b> c" joins the two surrounding spaces into a run that only a
second pass collapses. -/
theorem sanitize_not_idempotent_on_tag_input :
    sanitize_text (sanitize_text cexC3) ≠ sanitize_text cexC3 := by decide

/-! ## Claim C6 -/

/-- C6, counterexample: with an environment whose first initialization attempt
fails and whose second succeeds, the first predict call on a fresh service
fails and leaves it uninitialized after one attempt, and the second predict
call makes a second initialization attempt and succeeds — initialization
failure is not terminal and is retried. -/
theorem failed_init_retries_and_recovers :
    (predict ⟨false, 0⟩ flakyInit demoText false demoScores none).2 =
        .error "Pipeline initialization failed" ∧
    (predict ⟨false, 0⟩ flakyInit demoText false demoScores none).1 = ⟨false, 1⟩ ∧
    exceptIsOk (predict ⟨false, 1⟩ flakyInit demoText false demoScores none).2 = true ∧
    (predict ⟨false, 1⟩ flakyInit demoText false demoScores none).1 = ⟨true, 2⟩ :=
  ⟨rfl, rfl, rfl, rfl⟩

/-- C6, amended: a failing initialization attempt makes the predict call raise
the initialization error and leaves the service uninitialized with the attempt
counter advanced; every predict call on an uninitialized service makes a fresh
initialization attempt, so the failure is retried rather than terminal. -/
theorem failed_init_raises_and_retries_next_call
    (st : ServiceState) (io : Nat → Bool) (text : List Char) (ia : Bool)
    (results : Option (List (List RawScore)))
    (ai : Option (List String × List (List (List ℚ)) × List ℚ))
    (hst : st.isInitialized = false) (hfail : io st.initAttempts = false) :
    predict st io text ia results ai =
      (⟨false, st.initAttempts + 1⟩, .error "Pipeline initialization failed") ∧
    ∀ st' : ServiceState, st'.isInitialized = false →
      (predict st' io text ia results ai).1.initAttempts = st'.initAttempts + 1 := by
  constructor
  · simp [predict, hst, hfail]
  · intro st' h
    by_cases hio : io st'.initAttempts <;> simp [predict, h, hio]

/-- C6, witness for the amended statement at a concrete failing environment. -/
theorem failed_init_raises_and_retries_next_call_witness :
    (⟨false, 0⟩ : ServiceState).isInitialized = false ∧ flakyInit 0 = false ∧
    (predict ⟨false, 0⟩ flakyInit demoText false demoScores none =
      (⟨false, 1⟩, .error "Pipeline initialization failed") ∧
    ∀ st' : ServiceState, st'.isInitialized = false →
      (predict st' flakyInit demoText false demoScores none).1.initAttempts =
        st'.initAttempts + 1) :=
  ⟨rfl, rfl,
    failed_init_raises_and_retries_next_call ⟨false, 0⟩ flakyInit demoText false
      demoScores none rfl rfl⟩

/-! ## Claim C7 -/

/-- C7, counterexample: on the benign input "<b>hi</b>" validation succeeds
and reports contains_html = true, although the sanitized text contains no
html tag; the three pattern flags are computed on the original text, not the
sanitized text. -/
theorem metadata_flags_use_original_text :
    validate_text htmlDemoText = .ok htmlDemoMeta ∧
    htmlDemoMeta.contains_html = true ∧
    hasHtmlTag (sanitize_text htmlDemoText) = false :=
  ⟨rfl, rfl, rfl⟩

/-- C7, amended: for every accepted input, word_count and line_count are
computed from the sanitized text, the three pattern flags contains_urls,
contains_emails and contains_html are computed from the original
(unsanitized) text, and length is the length of the trimmed but unsanitized
input. -/
theorem metadata_fields_sources (text : List Char) (m : Metadata)
    (h : validate_text text = .ok m) :
    m.word_count = wordCount (sanitize_text text) ∧
    m.line_count = lineCount (sanitize_text text) ∧
    m.contains_urls = hasUrl text ∧
    m.contains_emails = hasEmail text ∧
    m.contains_html = hasHtmlTag text ∧
    m.length = (pyStrip text).length ∧
    m.original_length = text.length := by
  by_cases hemp : text = []
  · rw [validate_text, if_pos hemp] at h
    exact absurd h (by simp)
  · rw [validate_text, if_neg hemp] at h
    simp only [validate_length] at h
    by_cases hshort : (pyStrip text).length < 1
    · rw [if_pos hshort] at h
      exact absurd h (by simp)
    · rw [if_neg hshort] at h
      by_cases hlong : (pyStrip text).length > 10000
      · rw [if_pos hlong] at h
        exact absurd h (by simp)
      · rw [if_neg hlong] at h
        cases hc : validate_content text with
        | some msg =>
          rw [hc] at h
          exact absurd h (by simp)
        | none =>
          rw [hc] at h
          injection h with h'
          subst h'
          exact ⟨rfl, rfl, rfl, rfl, rfl, rfl, rfl⟩

/-- C7, witness for the amended statement on a concrete accepted input. -/
theorem metadata_fields_sources_witness :
    validate_text htmlDemoText = .ok htmlDemoMeta ∧
    (htmlDemoMeta.word_count = wordCount (sanitize_text htmlDemoText) ∧
    htmlDemoMeta.line_count = lineCount (sanitize_text htmlDemoText) ∧
    htmlDemoMeta.contains_urls = hasUrl htmlDemoText ∧
    htmlDemoMeta.contains_emails = hasEmail htmlDemoText ∧
    htmlDemoMeta.contains_html = hasHtmlTag htmlDemoText ∧
    htmlDemoMeta.length = (pyStrip htmlDemoText).length ∧
    htmlDemoMeta.original_length = htmlDemoText.length) :=
  ⟨rfl, metadata_fields_sources htmlDemoText htmlDemoMeta rfl⟩

/-! ## Claim C10 -/

/-- C10: when the backend classification returns a missing (None) or empty
result list, predict still succeeds, with sentiment_label "neutral",
confidence_score 0.5 and an empty raw class-score list in the result. -/
theorem predict_empty_results_neutral_fallback
    (st : ServiceState) (io : Nat → Bool) (text : List Char) (ia : Bool)
    (results : Option (List (List RawScore)))
    (ai : Option (List String × List (List (List ℚ)) × List ℚ))
    (hinit : st.isInitialized = true) (h1 : text ≠ []) (h2 : pyStrip text ≠ [])
    (h3 : text.length ≤ 10000) (hres : results = none ∨ results = some []) :
    (predict st io text ia results ai).2 =
      .ok ⟨"neutral", 1/2, [], text.length,
        if ia then some (extract_attention_weights ai) else none⟩ := by
  have h4 : ¬ (text.length > 10000) := by omega
  have hhalf : pyRound4 2⁻¹ = 2⁻¹ := by
    rw [show (2⁻¹ : ℚ) = 1/2 by norm_num]
    exact pyRound4_half
  rcases hres with rfl | rfl <;>
    simp [predict, hinit, predictBody, predictFromResults, h1, h2, h4, hhalf]

/-- C10, witness at a concrete missing backend result. -/
theorem predict_empty_results_neutral_fallback_witness :
    (⟨true, 0⟩ : ServiceState).isInitialized = true ∧ demoText ≠ [] ∧
    pyStrip demoText ≠ [] ∧ demoText.length ≤ 10000 ∧
    (predict ⟨true, 0⟩ flakyInit demoText false none none).2 =
      .ok ⟨"neutral", 1/2, [], demoText.length, none⟩ :=
  ⟨rfl, by decide, by decide, by decide, by
    have h := predict_empty_results_neutral_fallback ⟨true, 0⟩ flakyInit demoText false
      none none rfl (by decide) (by decide) (by decide) (Or.inl rfl)
    simpa using h⟩

/-! ## Claim C1 -/

/-- C1: every successful predict call on a nonempty backend score list returns
the confidence rounded to four places from the selected entry, where the
selected entry carries the maximal score of the list and is the first entry
attaining that maximum; the sentiment label is the canonicalization of that
entry's raw label. -/
theorem predict_confidence_is_rounded_max
    (st : ServiceState) (io : Nat → Bool) (text : List Char) (ia : Bool)
    (ai : Option (List String × List (List (List ℚ)) × List ℚ))
    (s : RawScore) (ss : List RawScore) (rest : List (List RawScore))
    (hinit : st.isInitialized = true) (h1 : text ≠ []) (h2 : pyStrip text ≠ [])
    (h3 : text.length ≤ 10000) :
    ∃ r : PredictResult,
      (predict st io text ia (some ((s :: ss) :: rest)) ai).2 = .ok r ∧
      r.confidence_score = pyRound4 (pyMaxBy s ss).score ∧
      r.sentiment_label = map_sentiment_label (pyMaxBy s ss).label ∧
      pyMaxBy s ss ∈ s :: ss ∧
      (∀ x ∈ s :: ss, x.score ≤ (pyMaxBy s ss).score) ∧
      ∃ l1 l2, s :: ss = l1 ++ pyMaxBy s ss :: l2 ∧
        ∀ x ∈ l1, x.score < (pyMaxBy s ss).score := by
  obtain ⟨hbound, l1, l2, hdec, hsmall⟩ := pyMaxBy_spec s ss
  have h4 : ¬ (text.length > 10000) := by omega
  have hmem : pyMaxBy s ss ∈ s :: ss := by
    rw [hdec]
    exact List.mem_append_right _ (List.mem_cons_self _ _)
  refine ⟨⟨map_sentiment_label (pyMaxBy s ss).label, pyRound4 (pyMaxBy s ss).score,
    (s :: ss) :: rest, text.length,
    if ia then some (extract_attention_weights ai) else none⟩,
    ?_, rfl, rfl, hmem, hbound, l1, l2, hdec, hsmall⟩
  simp [predict, hinit, predictBody, predictFromResults, h1, h2, h4]

/-- C1, witness on a concrete tied score list: the first of the two maximal
entries is selected. -/
theorem predict_confidence_is_rounded_max_witness :
    (⟨true, 0⟩ : ServiceState).isInitialized = true ∧ demoText ≠ [] ∧
    pyStrip demoText ≠ [] ∧ demoText.length ≤ 10000 ∧
    ∃ r : PredictResult,
      (predict ⟨true, 0⟩ flakyInit demoText false
        (some [[⟨"NEGATIVE", 1/2⟩, ⟨"POSITIVE", 1/2⟩]]) none).2 = .ok r ∧
      r.confidence_score = pyRound4 (pyMaxBy ⟨"NEGATIVE", 1/2⟩ [⟨"POSITIVE", 1/2⟩]).score ∧
      r.sentiment_label =
        map_sentiment_label (pyMaxBy ⟨"NEGATIVE", 1/2⟩ [⟨"POSITIVE", 1/2⟩]).label ∧
      pyMaxBy ⟨"NEGATIVE", 1/2⟩ [⟨"POSITIVE", 1/2⟩] ∈
        (⟨"NEGATIVE", 1/2⟩ : RawScore) :: [⟨"POSITIVE", 1/2⟩] ∧
      (∀ x ∈ (⟨"NEGATIVE", 1/2⟩ : RawScore) :: [⟨"POSITIVE", 1/2⟩],
        x.score ≤ (pyMaxBy ⟨"NEGATIVE", 1/2⟩ [⟨"POSITIVE", 1/2⟩]).score) ∧
      ∃ l1 l2, (⟨"NEGATIVE", 1/2⟩ : RawScore) :: [⟨"POSITIVE", 1/2⟩] =
          l1 ++ pyMaxBy ⟨"NEGATIVE", 1/2⟩ [⟨"POSITIVE", 1/2⟩] :: l2 ∧
        ∀ x ∈ l1, x.score < (pyMaxBy ⟨"NEGATIVE", 1/2⟩ [⟨"POSITIVE", 1/2⟩]).score :=
  ⟨rfl, by decide, by decide, by decide,
    predict_confidence_is_rounded_max ⟨true, 0⟩ flakyInit demoText false none
      ⟨"NEGATIVE", 1/2⟩ [⟨"POSITIVE", 1/2⟩] [] rfl (by decide) (by decide) (by decide)⟩

/-! ## Claim C9 -/

/-- C9: label canonicalization lower-cases its input and tests substring
membership, positive markers before negative markers, defaulting to neutral;
in particular a label containing both a positive and a negative marker maps
to positive. -/
theorem map_sentiment_label_priority (label : String) :
    (map_sentiment_label label = "positive" ↔
      ∃ m ∈ posMarkers, ∃ l1 l2, lowerList label.data = l1 ++ m.data ++ l2) ∧
    (map_sentiment_label label = "negative" ↔
      ((¬ ∃ m ∈ posMarkers, ∃ l1 l2, lowerList label.data = l1 ++ m.data ++ l2) ∧
       ∃ m ∈ negMarkers, ∃ l1 l2, lowerList label.data = l1 ++ m.data ++ l2)) ∧
    (map_sentiment_label label = "neutral" ↔
      ((¬ ∃ m ∈ posMarkers, ∃ l1 l2, lowerList label.data = l1 ++ m.data ++ l2) ∧
       ¬ ∃ m ∈ negMarkers, ∃ l1 l2, lowerList label.data = l1 ++ m.data ++ l2)) ∧
    ((∃ m ∈ posMarkers, ∃ l1 l2, lowerList label.data = l1 ++ m.data ++ l2) →
     (∃ m ∈ negMarkers, ∃ l1 l2, lowerList label.data = l1 ++ m.data ++ l2) →
     map_sentiment_label label = "positive") := by
  have hpos : (posMarkers.any fun m => containsSub m.data (lowerList label.data)) = true ↔
      ∃ m ∈ posMarkers, ∃ l1 l2, lowerList label.data = l1 ++ m.data ++ l2 := by
    rw [List.any_eq_true]
    constructor
    · rintro ⟨m, hm, hc⟩
      exact ⟨m, hm, (containsSub_iff _ _).mp hc⟩
    · rintro ⟨m, hm, hc⟩
      exact ⟨m, hm, (containsSub_iff _ _).mpr hc⟩
  have hneg : (negMarkers.any fun m => containsSub m.data (lowerList label.data)) = true ↔
      ∃ m ∈ negMarkers, ∃ l1 l2, lowerList label.data = l1 ++ m.data ++ l2 := by
    rw [List.any_eq_true]
    constructor
    · rintro ⟨m, hm, hc⟩
      exact ⟨m, hm, (containsSub_iff _ _).mp hc⟩
    · rintro ⟨m, hm, hc⟩
      exact ⟨m, hm, (containsSub_iff _ _).mpr hc⟩
  rw [map_sentiment_label]
  by_cases hp : (posMarkers.any fun m => containsSub m.data (lowerList label.data)) = true
  · rw [if_pos hp]
    refine ⟨⟨fun _ => hpos.mp hp, fun _ => rfl⟩, ⟨?_, ?_⟩, ⟨?_, ?_⟩, fun _ _ => rfl⟩
    · intro h
      exact absurd h (by decide)
    · rintro ⟨hnp, _⟩
      exact absurd (hpos.mp hp) hnp
    · intro h
      exact absurd h (by decide)
    · rintro ⟨hnp, _⟩
      exact absurd (hpos.mp hp) hnp
  · rw [if_neg hp]
    have hnp : ¬ ∃ m ∈ posMarkers, ∃ l1 l2, lowerList label.data = l1 ++ m.data ++ l2 :=
      fun hx => hp (hpos.mpr hx)
    by_cases hn : (negMarkers.any fun m => containsSub m.data (lowerList label.data)) = true
    · rw [if_pos hn]
      refine ⟨⟨?_, fun hx => absurd hx hnp⟩, ⟨fun _ => ⟨hnp, hneg.mp hn⟩, fun _ => rfl⟩,
        ⟨?_, ?_⟩, fun hx _ => absurd hx hnp⟩
      · intro h
        exact absurd h (by decide)
      · intro h
        exact absurd h (by decide)
      · rintro ⟨_, hnn⟩
        exact absurd (hneg.mp hn) hnn
    · rw [if_neg hn]
      have hnn : ¬ ∃ m ∈ negMarkers, ∃ l1 l2, lowerList label.data = l1 ++ m.data ++ l2 :=
        fun hx => hn (hneg.mpr hx)
      refine ⟨⟨?_, fun hx => absurd hx hnp⟩, ⟨?_, fun hx => absurd hx.2 hnn⟩,
        ⟨fun _ => ⟨hnp, hnn⟩, fun _ => rfl⟩, fun hx _ => absurd hx hnp⟩
      · intro h
        exact absurd h (by decide)
      · intro h
        exact absurd h (by decide)

/-! ## Sanitization lemmas -/

/-- Every character of the whitespace-collapsed list is either a space or a
nonwhitespace character of the input. -/
theorem collapseWs_mem {c : Char} : ∀ {l : List Char}, c ∈ collapseWs l →
    c = ' ' ∨ (c ∈ l ∧ isSpace c = false) := by
  intro l
  induction l with
  | nil =>
    intro h
    simp [collapseWs] at h
  | cons d ds ih =>
    intro h
    rw [collapseWs] at h
    by_cases hd : isSpace d = true
    · rw [if_pos hd] at h
      by_cases hh : headIsSpace ds = true
      · rw [if_pos hh] at h
        rcases ih h with h' | ⟨hmem, hns⟩
        · exact Or.inl h'
        · exact Or.inr ⟨List.mem_cons_of_mem _ hmem, hns⟩
      · rw [if_neg hh] at h
        rcases List.mem_cons.mp h with rfl | h'
        · exact Or.inl rfl
        · rcases ih h' with h'' | ⟨hmem, hns⟩
          · exact Or.inl h''
          · exact Or.inr ⟨List.mem_cons_of_mem _ hmem, hns⟩
    · rw [if_neg hd] at h
      rcases List.mem_cons.mp h with rfl | h'
      · exact Or.inr ⟨List.mem_cons_self _ _, by simpa using hd⟩
      · rcases ih h' with h'' | ⟨hmem, hns⟩
        · exact Or.inl h''
        · exact Or.inr ⟨List.mem_cons_of_mem _ hmem, hns⟩

/-- The collapsed list never contains a carriage return. -/
theorem collapseWs_not_mem_cr (l : List Char) : '\r' ∉ collapseWs l := by
  intro h
  rcases collapseWs_mem h with h' | ⟨_, hns⟩
  · exact absurd h' (by decide)
  · exact absurd hns (by decide)

/-- Collapsing whitespace introduces no angle bracket. -/
theorem collapseWs_not_mem_lt {l : List Char} (h : '<' ∉ l) : '<' ∉ collapseWs l := by
  intro hc
  rcases collapseWs_mem hc with h' | ⟨hm, _⟩
  · exact absurd h' (by decide)
  · exact h hm

/-- Whitespace in the collapsed list is the plain space. -/
theorem collapseWs_spacesOk (l : List Char) : spacesOk (collapseWs l) := by
  intro c hc hs
  rcases collapseWs_mem hc with h' | ⟨_, hns⟩
  · exact h'
  · rw [hns] at hs
    exact absurd hs (by decide)

/-- When the input does not start with whitespace, neither does its collapsed
form. -/
theorem collapseWs_head_not_space {l : List Char} (h : headIsSpace l = false) :
    ∀ b ∈ (collapseWs l).head?, isSpace b = false := by
  cases l with
  | nil =>
    intro b hb
    simp [collapseWs] at hb
  | cons d ds =>
    intro b hb
    have hd : isSpace d = false := by simpa [headIsSpace] using h
    rw [collapseWs, if_neg (by simp [hd])] at hb
    simp at hb
    rw [← hb]
    exact hd

/-- The collapsed list has no two adjacent whitespace characters. -/
theorem collapseWs_noWsPair (l : List Char) : noWsPair (collapseWs l) := by
  induction l with
  | nil => simp [collapseWs, noWsPair]
  | cons d ds ih =>
    rw [noWsPair, collapseWs]
    by_cases hd : isSpace d = true
    · rw [if_pos hd]
      by_cases hh : headIsSpace ds = true
      · rw [if_pos hh]
        exact ih
      · rw [if_neg hh]
        rw [List.chain'_cons']
        refine ⟨?_, ih⟩
        intro y hy hp
        have hns := collapseWs_head_not_space (by simpa using hh) y hy
        rw [hns] at hp
        exact absurd hp.2 (by decide)
    · rw [if_neg hd]
      rw [List.chain'_cons']
      refine ⟨?_, ih⟩
      intro y hy hp
      exact hd hp.1

/-- A list whose whitespace is all plain spaces with no adjacent pair is a
fixed point of whitespace collapsing. -/
theorem collapseWs_fixed : ∀ {l : List Char}, spacesOk l → noWsPair l →
    collapseWs l = l := by
  intro l
  induction l with
  | nil => intro _ _; rfl
  | cons d ds ih =>
    intro h1 h2
    have hds1 : spacesOk ds := fun c hc hs => h1 c (List.mem_cons_of_mem _ hc) hs
    have hds2 : noWsPair ds := (List.chain'_cons'.mp h2).2
    rw [collapseWs]
    by_cases hd : isSpace d = true
    · have hd' : d = ' ' := h1 d (List.mem_cons_self _ _) hd
      have hh : headIsSpace ds = false := by
        cases ds with
        | nil => rfl
        | cons e es =>
          by_cases he : isSpace e = true
          · exact absurd ⟨hd, he⟩ ((List.chain'_cons'.mp h2).1 e rfl)
          · simpa [headIsSpace] using he
      rw [if_pos hd, if_neg (by simp [hh]), ih hds1 hds2, hd']
    · rw [if_neg hd, ih hds1 hds2]

/-- The head surviving dropWhile fails the predicate. -/
theorem dropWhile_head_false (p : Char → Bool) (l : List Char) :
    ∀ b ∈ (l.dropWhile p).head?, p b = false := by
  induction l with
  | nil =>
    intro b hb
    simp at hb
  | cons d ds ih =>
    intro b hb
    rw [List.dropWhile_cons] at hb
    by_cases hd : p d = true
    · rw [if_pos hd] at hb
      exact ih b hb
    · rw [if_neg hd] at hb
      simp at hb
      rw [← hb]
      simpa using hd

/-- dropWhile is idempotent. -/
theorem dropWhile_dropWhile (p : Char → Bool) (l : List Char) :
    (l.dropWhile p).dropWhile p = l.dropWhile p := by
  cases h : l.dropWhile p with
  | nil => rfl
  | cons d ds =>
    have hd : p d = false := by
      have hh := dropWhile_head_false p l
      rw [h] at hh
      exact hh d rfl
    rw [List.dropWhile_cons, if_neg (by simp [hd])]

/-- dropWhile leaves a list alone when its head fails the predicate. -/
theorem dropWhile_eq_self_of_head (p : Char → Bool) (l : List Char)
    (h : ∀ b ∈ l.head?, p b = false) : l.dropWhile p = l := by
  cases l with
  | nil => rfl
  | cons d ds =>
    have hd := h d rfl
    rw [List.dropWhile_cons, if_neg (by simp [hd])]

/-- dropWhile preserves chains, since it removes a prefix. -/
theorem chain'_dropWhile {R : Char → Char → Prop} {p : Char → Bool} :
    ∀ {l : List Char}, List.Chain' R l → List.Chain' R (l.dropWhile p) := by
  intro l
  induction l with
  | nil =>
    intro _
    simp
  | cons d ds ih =>
    intro h
    rw [List.dropWhile_cons]
    by_cases hd : p d = true
    · rw [if_pos hd]
      exact ih (List.chain'_cons'.mp h).2
    · rw [if_neg hd]
      exact h

/-- The no-adjacent-whitespace property is preserved by reversal. -/
theorem noWsPair_reverse {l : List Char} (h : noWsPair l) : noWsPair l.reverse := by
  rw [noWsPair, List.chain'_reverse]
  refine h.imp ?_
  intro a b hab hba
  exact hab ⟨hba.2, hba.1⟩

/-- Membership in the stripped list implies membership in the input. -/
theorem mem_pyStrip {c : Char} {l : List Char} (h : c ∈ pyStrip l) : c ∈ l := by
  rw [pyStrip, List.mem_reverse] at h
  have h1 := List.Sublist.mem h (List.dropWhile_sublist isSpace)
  rw [List.mem_reverse] at h1
  exact List.Sublist.mem h1 (List.dropWhile_sublist isSpace)

/-- Space normality is preserved by trimming. -/
theorem spacesOk_pyStrip {l : List Char} (h : spacesOk l) : spacesOk (pyStrip l) :=
  fun c hc hs => h c (mem_pyStrip hc) hs

/-- The no-adjacent-whitespace property is preserved by trimming. -/
theorem noWsPair_pyStrip {l : List Char} (h : noWsPair l) : noWsPair (pyStrip l) := by
  rw [pyStrip]
  exact noWsPair_reverse (chain'_dropWhile (noWsPair_reverse (chain'_dropWhile h)))

/-- Trimming is idempotent. -/
theorem pyStrip_idem (l : List Char) : pyStrip (pyStrip l) = pyStrip l := by
  simp only [pyStrip]
  have hstep1 : ((l.dropWhile isSpace).reverse.dropWhile isSpace).reverse.dropWhile isSpace
      = ((l.dropWhile isSpace).reverse.dropWhile isSpace).reverse := by
    apply dropWhile_eq_self_of_head
    cases hb : ((l.dropWhile isSpace).reverse.dropWhile isSpace).reverse with
    | nil =>
      intro b hb'
      simp at hb'
    | cons c cs =>
      intro b hb'
      have hbc : c = b := by simpa using hb'
      have hsplit : (l.dropWhile isSpace).reverse.takeWhile isSpace ++
          (l.dropWhile isSpace).reverse.dropWhile isSpace = (l.dropWhile isSpace).reverse :=
        List.takeWhile_append_dropWhile _ _
      have hrev : ((l.dropWhile isSpace).reverse.dropWhile isSpace).reverse ++
          ((l.dropWhile isSpace).reverse.takeWhile isSpace).reverse = l.dropWhile isSpace := by
        rw [← List.reverse_append, hsplit, List.reverse_reverse]
      rw [hb] at hrev
      have hhead := dropWhile_head_false isSpace l
      rw [← hrev] at hhead
      have hc : isSpace c = false := hhead c (by simp)
      rw [← hbc]
      exact hc
  rw [hstep1, List.reverse_reverse, dropWhile_dropWhile]

/-- Tag stripping is the identity on inputs with no opening angle bracket. -/
theorem stripTagsAux_no_lt : ∀ (fuel : Nat) (l : List Char), '<' ∉ l →
    stripTagsAux fuel l = l := by
  intro fuel
  induction fuel with
  | zero =>
    intro l _
    rfl
  | succ n ih =>
    intro l h
    cases l with
    | nil => rfl
    | cons c cs =>
      have hc : ¬ (c = '<') := by
        intro hh
        apply h
        rw [hh]
        exact List.mem_cons_self _ _
      rw [stripTagsAux, if_neg hc, ih cs fun hm => h (List.mem_cons_of_mem _ hm)]

/-- The crlf replacement is the identity without carriage returns. -/
theorem replaceCRLF_no_cr : ∀ {l : List Char}, '\r' ∉ l → replaceCRLF l = l := by
  intro l
  induction l with
  | nil =>
    intro _
    rfl
  | cons c cs ih =>
    intro h
    cases cs with
    | nil => rfl
    | cons d ds =>
      have hc : ¬ ((c = '\r' && d = '\n') = true) := by
        intro hcd
        rw [Bool.and_eq_true, decide_eq_true_eq, decide_eq_true_eq] at hcd
        apply h
        rw [hcd.1]
        exact List.mem_cons_self _ _
      rw [show replaceCRLF (c :: d :: ds) =
          if c = '\r' && d = '\n' then '\n' :: replaceCRLF ds
          else c :: replaceCRLF (d :: ds) from rfl,
        if_neg hc, ih fun hm => h (List.mem_cons_of_mem _ hm)]

/-- The cr replacement is the identity without carriage returns. -/
theorem replaceCR_no_cr : ∀ {l : List Char}, '\r' ∉ l → replaceCR l = l := by
  intro l
  induction l with
  | nil =>
    intro _
    rfl
  | cons c cs ih =>
    intro h
    have hc : ¬ (c = '\r') := by
      intro hh
      apply h
      rw [hh]
      exact List.mem_cons_self _ _
    rw [replaceCR, List.map_cons, if_neg hc]
    have htail : replaceCR cs = cs := ih fun hm => h (List.mem_cons_of_mem _ hm)
    rw [replaceCR] at htail
    rw [htail]

/-- On inputs without an opening angle bracket, sanitization is collapsing
followed by trimming. -/
theorem sanitize_eq_collapse_strip {l : List Char} (h : '<' ∉ l) :
    sanitize_text l = pyStrip (collapseWs l) := by
  rw [sanitize_text, stripTags, stripTagsAux_no_lt _ _ (collapseWs_not_mem_lt h),
    replaceCRLF_no_cr (collapseWs_not_mem_cr l), replaceCR_no_cr (collapseWs_not_mem_cr l)]

/-! ## Claim C3, amended -/

/-- C3, amended: sanitize is idempotent on every input that contains no `<`
character; full idempotence fails because stripping an html tag can join the
whitespace on its two sides into a run (see the counterexample). -/
theorem sanitize_idempotent_without_lt (t : List Char) (h : '<' ∉ t) :
    sanitize_text (sanitize_text t) = sanitize_text t := by
  have h1 : sanitize_text t = pyStrip (collapseWs t) := sanitize_eq_collapse_strip h
  have hvlt : '<' ∉ sanitize_text t := by
    rw [h1]
    intro hm
    exact collapseWs_not_mem_lt h (mem_pyStrip hm)
  have hok : spacesOk (sanitize_text t) := by
    rw [h1]
    exact spacesOk_pyStrip (collapseWs_spacesOk t)
  have hnp : noWsPair (sanitize_text t) := by
    rw [h1]
    exact noWsPair_pyStrip (collapseWs_noWsPair t)
  rw [sanitize_eq_collapse_strip hvlt, collapseWs_fixed hok hnp, h1, pyStrip_idem]

/-- C3, witness for the amended statement on a concrete bracket-free input. -/
theorem sanitize_idempotent_without_lt_witness :
    '<' ∉ ['a', ' ', ' ', 'b'] ∧
    sanitize_text (sanitize_text ['a', ' ', ' ', 'b']) = sanitize_text ['a', ' ', ' ', 'b'] :=
  ⟨by decide, sanitize_idempotent_without_lt _ (by decide)⟩

/-! ## Attribution lemmas -/

/-- The comparator of the contribution sort is transitive. -/
theorem wcLe_trans : ∀ a b c : WordContribution, wcLe a b = true → wcLe b c = true →
    wcLe a c = true := by
  intro a b c hab hbc
  rw [wcLe, decide_eq_true_eq] at hab hbc ⊢
  exact le_trans hbc hab

/-- The comparator of the contribution sort is total. -/
theorem wcLe_total : ∀ a b : WordContribution, (wcLe a b || wcLe b a) = true := by
  intro a b
  rw [Bool.or_eq_true, wcLe, wcLe, decide_eq_true_eq, decide_eq_true_eq]
  exact le_total _ _

/-- The attention payload is either empty or assembled from a list of entries,
its stable sort, and the first ten of that sort. -/
theorem extract_shape (inp : Option (List String × List (List (List ℚ)) × List ℚ)) :
    extract_attention_weights inp = emptyAttention ∨
    ∃ entries : List TokenAttr,
      extract_attention_weights inp =
        ⟨entries,
         (entries.map fun e => WordContribution.mk e.token e.contribution_score).mergeSort wcLe,
         ((entries.map fun e => WordContribution.mk e.token e.contribution_score).mergeSort
           wcLe).take 10⟩ := by
  cases inp with
  | none => exact Or.inl rfl
  | some t =>
    obtain ⟨tokens, att, logits⟩ := t
    cases hagm : argmaxQ logits with
    | none =>
      refine Or.inl ?_
      simp [extract_attention_weights, extractAttentionOpt, hagm]
    | some idx =>
      cases hlm : labelMapping idx with
      | none =>
        refine Or.inl ?_
        simp [extract_attention_weights, extractAttentionOpt, hagm, hlm]
      | some lbl =>
        cases hbe : buildEntries (clsRow att) (if lbl = "positive" then 1 else -1) 0 tokens with
        | none =>
          refine Or.inl ?_
          simp [extract_attention_weights, extractAttentionOpt, hagm, hlm, hbe]
        | some entries =>
          refine Or.inr ⟨entries, ?_⟩
          simp [extract_attention_weights, extractAttentionOpt, hagm, hlm, hbe]

/-- Every entry built by the attribution loop has its contribution equal to
its rounded attention multiplied by the sign, rounded. -/
theorem buildEntries_contribution (cls : List ℚ) (infl : ℚ)
    (hinfl : infl = 1 ∨ infl = -1) :
    ∀ (i : Nat) (ts : List String) (entries : List TokenAttr),
      buildEntries cls infl i ts = some entries →
      ∀ e ∈ entries, e.contribution_score = pyRound4 (e.attention_score * infl) := by
  intro i ts
  induction ts generalizing i with
  | nil =>
    intro entries h e he
    simp only [buildEntries, Option.some.injEq] at h
    rw [← h] at he
    simp at he
  | cons t ts ih =>
    intro entries h e he
    rw [buildEntries] at h
    by_cases hsp : t ∈ specialTokens
    · rw [if_pos hsp] at h
      exact ih (i + 1) entries h e he
    · rw [if_neg hsp] at h
      cases hcl : cls[i]? with
      | none =>
        rw [hcl] at h
        exact absurd h (by simp)
      | some a =>
        rw [hcl] at h
        cases hbe : buildEntries cls infl (i + 1) ts with
        | none =>
          rw [hbe] at h
          exact absurd h (by simp)
        | some rest =>
          rw [hbe] at h
          simp only [Option.some.injEq] at h
          rw [← h] at he
          rcases List.mem_cons.mp he with rfl | he'
          · exact (pyRound4_mul_sign a infl hinfl).symm
          · exact ih (i + 1) rest hbe e he'

/-- The label dict contains exactly the two fixed labels. -/
theorem labelMapping_cases {n : Nat} {lbl : String} (h : labelMapping n = some lbl) :
    lbl = "negative" ∨ lbl = "positive" := by
  rw [labelMapping] at h
  by_cases h0 : n = 0
  · rw [if_pos h0] at h
    injection h with h'
    exact Or.inl h'.symm
  · rw [if_neg h0] at h
    by_cases h1 : n = 1
    · rw [if_pos h1] at h
      injection h with h'
      exact Or.inr h'.symm
    · rw [if_neg h1] at h
      exact absurd h (by simp)

/-! ## Claim C4 -/

/-- C4: on every successful attention extraction there is a predicted label,
read from the argmax of the logits through the label dict, such that every
token entry satisfies contribution_score = round(attention_score × sign, 4),
with sign +1 exactly when that label canonicalizes to positive and −1
otherwise. -/
theorem contribution_score_is_signed_rounded_attention
    (tokens : List String) (att : List (List (List ℚ))) (logits : List ℚ)
    (d : AttentionData) (h : extractAttentionOpt tokens att logits = some d) :
    ∃ idx lbl, argmaxQ logits = some idx ∧ labelMapping idx = some lbl ∧
      ∀ e ∈ d.attention_weights,
        e.contribution_score = pyRound4 (e.attention_score *
          (if map_sentiment_label lbl = "positive" then 1 else -1)) := by
  cases hagm : argmaxQ logits with
  | none => simp [extractAttentionOpt, hagm] at h
  | some idx =>
    cases hlm : labelMapping idx with
    | none => simp [extractAttentionOpt, hagm, hlm] at h
    | some lbl =>
      cases hbe : buildEntries (clsRow att) (if lbl = "positive" then 1 else -1) 0 tokens with
      | none => simp [extractAttentionOpt, hagm, hlm, hbe] at h
      | some entries =>
        simp only [extractAttentionOpt, hagm, hlm, hbe, Option.some.injEq] at h
        refine ⟨idx, lbl, rfl, hlm, ?_⟩
        intro e he
        rw [← h] at he
        dsimp only at he
        have hsign : (if lbl = "positive" then (1:ℚ) else -1) = 1 ∨
            (if lbl = "positive" then (1:ℚ) else -1) = -1 := by
          by_cases hl : lbl = "positive"
          · exact Or.inl (if_pos hl)
          · exact Or.inr (if_neg hl)
        have hmap : (if map_sentiment_label lbl = "positive" then (1:ℚ) else -1) =
            (if lbl = "positive" then (1:ℚ) else -1) := by
          rcases labelMapping_cases hlm with rfl | rfl
          · rw [show map_sentiment_label "negative" = "negative" from by decide]
          · rw [show map_sentiment_label "positive" = "positive" from by decide]
        rw [hmap]
        exact buildEntries_contribution _ _ hsign 0 tokens entries hbe e he

/-- C4, witness on the small attribution run. -/
theorem contribution_score_is_signed_rounded_attention_witness :
    extractAttentionOpt cdTokens cdAtt cdLogits = some cdData ∧
    ∃ idx lbl, argmaxQ cdLogits = some idx ∧ labelMapping idx = some lbl ∧
      ∀ e ∈ cdData.attention_weights,
        e.contribution_score = pyRound4 (e.attention_score *
          (if map_sentiment_label lbl = "positive" then 1 else -1)) := by
  have hsome : extractAttentionOpt cdTokens cdAtt cdLogits = some cdData := rfl
  exact ⟨hsome, contribution_score_is_signed_rounded_attention _ _ _ _ hsome⟩

/-! ## Claim C5 -/

/-- C5: the top contributions list of every attention payload has at most ten
entries, carries nonincreasing absolute contribution scores, is the ten-entry
truncation of the sorted contribution list, draws its entries from the token
entries, and the sort is stable: a tied pair in token order stays in that
order. -/
theorem top_contributions_sorted_bounded_stable
    (inp : Option (List String × List (List (List ℚ)) × List ℚ)) :
    (extract_attention_weights inp).top_contributing_words.length ≤ 10 ∧
    List.Pairwise (fun a b : WordContribution => |b.score| ≤ |a.score|)
      (extract_attention_weights inp).top_contributing_words ∧
    (extract_attention_weights inp).top_contributing_words =
      (extract_attention_weights inp).word_contributions.take 10 ∧
    ((extract_attention_weights inp).word_contributions.Perm
      ((extract_attention_weights inp).attention_weights.map
        fun w => WordContribution.mk w.token w.contribution_score)) ∧
    (∀ e ∈ (extract_attention_weights inp).top_contributing_words,
      e ∈ (extract_attention_weights inp).attention_weights.map
        fun w => WordContribution.mk w.token w.contribution_score) ∧
    (∀ a b : WordContribution, |a.score| = |b.score| →
      List.Sublist [a, b] ((extract_attention_weights inp).attention_weights.map
        fun w => WordContribution.mk w.token w.contribution_score) →
      List.Sublist [a, b] (extract_attention_weights inp).word_contributions) := by
  rcases extract_shape inp with h | ⟨entries, h⟩
  · rw [h]
    refine ⟨by simp [emptyAttention], by simp [emptyAttention], by simp [emptyAttention],
      by simp [emptyAttention], by simp [emptyAttention], ?_⟩
    intro a b _ hsub
    simp only [emptyAttention, List.map_nil] at hsub
    exact absurd (List.Sublist.length_le hsub) (by simp)
  · rw [h]
    dsimp only
    refine ⟨?_, ?_, rfl, List.mergeSort_perm _ wcLe, ?_, ?_⟩
    · rw [List.length_take]
      exact min_le_left _ _
    · have hs := List.sorted_mergeSort wcLe_trans wcLe_total
        (entries.map fun e => WordContribution.mk e.token e.contribution_score)
      have hs' : List.Pairwise (fun a b : WordContribution => |b.score| ≤ |a.score|)
          ((entries.map fun e => WordContribution.mk e.token e.contribution_score).mergeSort
            wcLe) := by
        refine hs.imp ?_
        intro a b hab
        rwa [wcLe, decide_eq_true_eq] at hab
      exact List.Pairwise.sublist (List.take_sublist _ _) hs'
    · intro e he
      have h1 := List.Sublist.mem he (List.take_sublist _ _)
      exact ((List.mergeSort_perm _ wcLe).mem_iff).mp h1
    · intro a b heq hsub
      refine List.mergeSort_stable_pair wcLe_trans wcLe_total ?_ hsub
      rw [wcLe, decide_eq_true_eq, heq]

/-! ## Claim C8 -/

/-- A failing extraction input produces the empty payload. -/
theorem extract_fails_empty
    {ai : Option (List String × List (List (List ℚ)) × List ℚ)}
    (h : extractFails ai) : extract_attention_weights ai = emptyAttention := by
  cases ai with
  | none => rfl
  | some t =>
    obtain ⟨tokens, att, logits⟩ := t
    have h' : extractAttentionOpt tokens att logits = none := h
    rw [extract_attention_weights, h']
    rfl

/-- C8: when any exception occurs during attention extraction, a predict call
with attention requested still succeeds and carries the empty attention
payload (empty token list, empty contributions); the failure is not surfaced
as an error. -/
theorem attention_failure_degrades_to_empty
    (st : ServiceState) (io : Nat → Bool) (text : List Char)
    (results : Option (List (List RawScore))) (core : PredictionCore)
    (ai : Option (List String × List (List (List ℚ)) × List ℚ))
    (hinit : st.isInitialized = true) (h1 : text ≠ []) (h2 : pyStrip text ≠ [])
    (h3 : text.length ≤ 10000) (hres : predictFromResults results = .ok core)
    (hfail : extractFails ai) :
    (predict st io text true results ai).2 =
      .ok ⟨core.sentiment_label, core.confidence_score, core.model_confidence,
        text.length, some emptyAttention⟩ := by
  have h4 : ¬ (text.length > 10000) := by omega
  simp [predict, hinit, predictBody, h1, h2, h4, hres, extract_fails_empty hfail]

/-- C8, witness on a concrete backend result and a failing extraction. -/
theorem attention_failure_degrades_to_empty_witness :
    (⟨true, 0⟩ : ServiceState).isInitialized = true ∧ demoText ≠ [] ∧
    pyStrip demoText ≠ [] ∧ demoText.length ≤ 10000 ∧
    predictFromResults demoScores = .ok
      ⟨map_sentiment_label (pyMaxBy ⟨"POSITIVE", 9/10⟩ [⟨"NEGATIVE", 1/10⟩]).label,
       pyRound4 (pyMaxBy ⟨"POSITIVE", 9/10⟩ [⟨"NEGATIVE", 1/10⟩]).score,
       [[⟨"POSITIVE", 9/10⟩, ⟨"NEGATIVE", 1/10⟩]]⟩ ∧
    extractFails (none : Option (List String × List (List (List ℚ)) × List ℚ)) ∧
    (predict ⟨true, 0⟩ flakyInit demoText true demoScores none).2 =
      .ok ⟨map_sentiment_label (pyMaxBy ⟨"POSITIVE", 9/10⟩ [⟨"NEGATIVE", 1/10⟩]).label,
        pyRound4 (pyMaxBy ⟨"POSITIVE", 9/10⟩ [⟨"NEGATIVE", 1/10⟩]).score,
        [[⟨"POSITIVE", 9/10⟩, ⟨"NEGATIVE", 1/10⟩]], demoText.length, some emptyAttention⟩ :=
  ⟨rfl, by decide, by decide, by decide, rfl, trivial,
    attention_failure_degrades_to_empty ⟨true, 0⟩ flakyInit demoText demoScores
      ⟨map_sentiment_label (pyMaxBy ⟨"POSITIVE", 9/10⟩ [⟨"NEGATIVE", 1/10⟩]).label,
       pyRound4 (pyMaxBy ⟨"POSITIVE", 9/10⟩ [⟨"NEGATIVE", 1/10⟩]).score,
       [[⟨"POSITIVE", 9/10⟩, ⟨"NEGATIVE", 1/10⟩]]⟩
      none rfl (by decide) (by decide) (by decide) rfl trivial⟩

end SentimentSpec
